import Mathlib

/-!
Verification of the tts-edgeone batched concurrent audio-synthesis pipeline.

Shallow embedding of the JavaScript sources:
  * `edge-functions/utils/text-processing.js` — `smartChunkText`
  * `edge-functions/lib/tts.js` — `getVoice`, `pipeChunksToStream`, `getAudioChunk`
  * `edge-functions/lib/auth.js` — `getEndpoint`, token cache state

Strings are modelled as `List Char`, audio blobs as `List Nat` (bytes).
Asynchronous JavaScript runs on a single-threaded event loop: code between
two `await` points is atomic.  The credential cache is modelled as an
explicit state machine whose atomic steps correspond to those segments.
-/

set_option maxHeartbeats 1000000

/-! ## Chunker: `smartChunkText` (text-processing.js lines 13-51) -/

/-- The sentence-delimiter character class of the split regex
`/([.?!,;:\n。？！，；：\r]+)/g` in `smartChunkText`. -/
def isDelim (c : Char) : Bool :=
  c ∈ ['.', '?', '!', ',', ';', ':', '\n', '。', '？', '！', '，', '；', '：', '\r']

/-- JavaScript whitespace for `String.prototype.trim` (WhiteSpace ∪ LineTerminator). -/
def isJsWs (c : Char) : Bool :=
  c ∈ [' ', '\t', '\n', '\r', '\u000B', '\u000C', ' ', ' ',
       ' ', ' ', ' ', ' ', ' ', ' ', ' ',
       ' ', ' ', ' ', ' ', ' ', ' ', ' ',
       ' ', '　', '﻿']

/-- `s.trim()`: drop leading and trailing JavaScript whitespace. -/
def trimChars (l : List Char) : List Char :=
  ((l.dropWhile isJsWs).reverse.dropWhile isJsWs).reverse

/-- `text.split(/([.?!,;:\n。？！，；：\r]+)/g)`: split on maximal delimiter
runs, keeping the captured delimiter runs as their own elements.  The result
alternates (possibly empty) non-delimiter runs with non-empty delimiter runs,
starting and ending with a non-delimiter run. -/
def splitKeepDelims (l : List Char) : List (List Char) :=
  match h : l.dropWhile (fun c => !isDelim c) with
  | [] => [l.takeWhile (fun c => !isDelim c)]
  | c :: cs =>
    l.takeWhile (fun c => !isDelim c) :: (c :: cs).takeWhile isDelim
      :: splitKeepDelims ((c :: cs).dropWhile isDelim)
termination_by l.length
decreasing_by
  have h1 := congrArg List.length (List.takeWhile_append_dropWhile (fun c => !isDelim c) l)
  rw [h] at h1
  simp only [List.length_append, List.length_cons] at h1
  have hc : isDelim c = true := by
    have h2 := List.head_dropWhile_not (fun c => !isDelim c) l (by rw [h]; simp)
    simp only [h, List.head_cons] at h2
    simpa using h2
  rw [List.dropWhile_cons, if_pos hc]
  have h3 := congrArg List.length (List.takeWhile_append_dropWhile isDelim cs)
  simp only [List.length_append] at h3
  omega

/-- One iteration of the greedy accumulation loop in `smartChunkText`
(lines 23-36).  The accumulator is `(chunks, parts, currentLength)`. -/
def chunkStep (maxLen : Nat) (acc : List (List Char) × List (List Char) × Nat)
    (part : List Char) : List (List Char) × List (List Char) × Nat :=
  let (chunks, parts, cur) := acc
  if cur + part.length ≤ maxLen then
    (chunks, parts ++ [part], cur + part.length)
  else
    ((if parts = [] then chunks else chunks ++ [trimChars parts.flatten]),
     [part], part.length)

/-- The fixed-width fallback slicer (lines 44-48): cut into `w`-character
windows.  The JavaScript loop does not terminate for `w = 0`; that case is
unreachable (the fallback is guarded by `maxChunkLength` use sites with
`w ≥ 1`) and we return `[]` there. -/
def fixedWidthChunks (w : Nat) (l : List Char) : List (List Char) :=
  if w = 0 then []
  else
    match l with
    | [] => []
    | c :: cs => (c :: cs).take w :: fixedWidthChunks w ((c :: cs).drop w)
termination_by l.length
decreasing_by
  simp
  omega

/-- The boundary-aware pass of `smartChunkText` (lines 16-41): split on
delimiters, run the greedy loop, flush the trailing buffer.  This is the
value of `chunks` at line 43, before the fallback check and the final
filter. -/
def boundaryChunks (text : List Char) (maxChunkLength : Nat) : List (List Char) :=
  match (splitKeepDelims text).foldl (chunkStep maxChunkLength) ([], [], 0) with
  | (chunks0, parts, _cur) =>
    if parts = [] then chunks0 else chunks0 ++ [trimChars parts.flatten]

/-- `smartChunkText(text, maxChunkLength)` from text-processing.js. -/
def smartChunkText (text : List Char) (maxChunkLength : Nat) : List (List Char) :=
  if text = [] then []
  else
    (if boundaryChunks text maxChunkLength = [] ∧ text ≠ [] then
       fixedWidthChunks maxChunkLength text
     else boundaryChunks text maxChunkLength).filter (fun c => c.length > 0)

/-! ## Effective concurrency (tts.js lines 53-57 and 106-110) -/

/-- `Math.min(concurrency, chunks.length, Math.max(5, Math.ceil(chunks.length / 3)))`.
`Math.ceil(n / 3)` on a natural `n` is `(n + 2) / 3` in integer arithmetic. -/
def optimalConcurrency (concurrency n : Nat) : Nat :=
  min concurrency (min n (max 5 ((n + 2) / 3)))

/-! ## Synthesis pipeline model (tts.js)

Audio blobs are byte lists.  A unit's synthesis outcome is given by an
oracle `synth : Nat → Except String Blob` (outcome of `getAudioChunk` for
the unit at that input position) and a completion schedule
`sched : Nat → Nat` (the event-loop time at which that unit's promise
settles).  `Promise.all` resolves with the results in submission order;
it rejects with the error of the earliest-settling rejected promise. -/

/-- Audio bytes. -/
abbrev Blob := List Nat

/-- The earliest rejection among `(completionTime, outcome)` pairs:
the error whose completion time is minimal (ties broken by submission
order, as the earlier promise settles first within one tick). -/
def firstRejection : List (Nat × Except String Blob) → Option (Nat × String)
  | [] => none
  | (time, Except.error m) :: rest =>
    match firstRejection rest with
    | none => some (time, m)
    | some (bt, bm) => if bt < time then some (bt, bm) else some (time, m)
  | (_, Except.ok _) :: rest => firstRejection rest

/-- `Promise.all`: resolves with all values in submission order, or rejects
with the earliest rejection. -/
def promiseAll (tasks : List (Nat × Except String Blob)) : Except String (List Blob) :=
  match firstRejection tasks with
  | some (_, m) => Except.error m
  | none => Except.ok (tasks.filterMap (fun t => t.2.toOption))

/-- The bytes of a successful synthesis outcome (defaulting to `[]`; only
used where the outcome is known to be a success). -/
def blobOf (r : Except String Blob) : Blob :=
  match r with
  | Except.ok b => b
  | Except.error _ => []

/-- Consecutive batches of size `e` (the slicing loop
`for (let i = 0; i < chunks.length; i += e)`).  The JavaScript loop does
not terminate for `e = 0` on a non-empty list; every use site has `e ≥ 1`
when the list is non-empty, and we return `[]` in that unreachable case. -/
def listChunks (e : Nat) (l : List α) : List (List α) :=
  if e = 0 then []
  else
    match l with
    | [] => []
    | c :: cs => (c :: cs).take e :: listChunks e ((c :: cs).drop e)
termination_by l.length
decreasing_by
  simp
  omega

/-- The unit indices of each batch for `n` units at effective concurrency `e`. -/
def batchIndices (e n : Nat) : List (List Nat) :=
  listChunks e (List.range n)

/-- The batch loop of `getVoice` (tts.js lines 113-122): process batches
sequentially, awaiting `Promise.all` of each batch; collect blobs in
submission order.  Also returns the trace of unit indices for which
`getAudioChunk` was invoked, in call order. -/
def runBatches (synth : Nat → Except String Blob) (sched : Nat → Nat) :
    List (List Nat) → Except String (List Blob) × List Nat
  | [] => (Except.ok [], [])
  | b :: bs =>
    match promiseAll (b.map (fun i => (sched i, synth i))) with
    | Except.error m => (Except.error m, b)
    | Except.ok blobs =>
      let (r, tr) := runBatches synth sched bs
      (r.map (fun rest => blobs ++ rest), b ++ tr)

/-- An HTTP response body: either raw audio bytes or the JSON error envelope
built by `errorResponse` (error-response util). -/
inductive RespBody where
  | raw (bytes : Blob)
  | errJson (message : String) (errType : String) (code : String)
deriving DecidableEq

/-- A modelled HTTP response. -/
structure HttpResponse where
  status : Nat
  contentType : String
  body : RespBody
deriving DecidableEq

/-- `errorResponse(message, status, code, type = "api_error")` from the
error-response util: a JSON error envelope with CORS headers. -/
def errorResponse (message : String) (status : Nat) (code : String)
    (errType : String := "api_error") : HttpResponse :=
  { status := status, contentType := "application/json",
    body := RespBody.errJson message errType code }

/-- `getVoice` (tts.js lines 101-132), buffered mode: run all batches, then
concatenate the blobs into one `audio/mpeg` response; any error is caught
and turned into `errorResponse` with the wrapped message.  The second
component is the trace of invoked unit indices. -/
def getVoiceModel (synth : Nat → Except String Blob) (sched : Nat → Nat)
    (concurrency n : Nat) : HttpResponse × List Nat :=
  match runBatches synth sched (batchIndices (optimalConcurrency concurrency n) n) with
  | (Except.ok blobs, tr) =>
    ({ status := 200, contentType := "audio/mpeg", body := RespBody.raw blobs.flatten }, tr)
  | (Except.error m, tr) =>
    (errorResponse ("非流式 TTS 失败: " ++ m) 500 "tts_generation_error", tr)

/-- A call made on the `TransformStream` writer. -/
inductive WriterCall where
  | write (bytes : Blob)
  | abortW (msg : String)
  | close
deriving DecidableEq

/-- The batch loop of `pipeChunksToStream` (tts.js lines 60-77): per
successful batch, write each blob to the stream in submission order;
on a batch failure stop with the error. -/
def pipeLoop (synth : Nat → Except String Blob) (sched : Nat → Nat) :
    List (List Nat) → Except String Unit × List WriterCall
  | [] => (Except.ok (), [])
  | b :: bs =>
    match promiseAll (b.map (fun i => (sched i, synth i))) with
    | Except.error m => (Except.error m, [])
    | Except.ok blobs =>
      let (r, tr) := pipeLoop synth sched bs
      (r, blobs.map WriterCall.write ++ tr)

/-- `pipeChunksToStream` (tts.js lines 50-84): the batch loop inside
`try`; the `catch` calls `writer.abort(error)` and rethrows the wrapped
error; the `finally` always calls `writer.close()`.  Returns the overall
outcome and the full trace of writer calls. -/
def pipeModel (synth : Nat → Except String Blob) (sched : Nat → Nat)
    (concurrency n : Nat) : Except String Unit × List WriterCall :=
  match pipeLoop synth sched (batchIndices (optimalConcurrency concurrency n) n) with
  | (Except.ok _, writes) =>
    (Except.ok (), writes ++ [WriterCall.close])
  | (Except.error m, writes) =>
    (Except.error ("流式处理失败: " ++ m), writes ++ [WriterCall.abortW m, WriterCall.close])

/-- The state of the writable side of the `TransformStream`. -/
inductive WriterState where
  | opened
  | closed
  | errored (msg : String)
deriving DecidableEq

/-- Effect of one writer call on the stream state.  A `write`/`close`/`abort`
on a non-open writer returns a rejected promise (which the source never
awaits) and leaves the stream state unchanged. -/
def applyWriterCall (s : WriterState) (c : WriterCall) : WriterState :=
  match s, c with
  | WriterState.opened, WriterCall.write _ => WriterState.opened
  | WriterState.opened, WriterCall.close => WriterState.closed
  | WriterState.opened, WriterCall.abortW m => WriterState.errored m
  | s, _ => s

/-- Final stream state after a trace of writer calls. -/
def finalWriterState (calls : List WriterCall) : WriterState :=
  calls.foldl applyWriterCall WriterState.opened

/-! ## Credential cache model (auth.js)

`getEndpoint` runs on a single-threaded event loop.  From entry to the
point where it returns (either the cached endpoint or
`tokenRefreshPromise`) it contains no `await`, so that whole segment is
one atomic step: `getEndpointStep`.  Starting a refresh assigns a fresh
promise identifier; the refresh body later settles that promise
(`refreshSettle`), and each caller that holds the identifier receives the
settled value (`deliver`). -/

/-- The backend's endpoint record `{ r: region, t: token, ... }`. -/
structure EndpointData where
  r : String
  t : String
deriving DecidableEq

/-- The module-level `tokenInfo` cache (auth.js line 22). -/
structure TokenInfo where
  endpoint : Option EndpointData
  token : Option String
  expiredAt : Option Nat
deriving DecidableEq

/-- The module-level mutable state of auth.js, extended with a fresh-name
supply for promise identities and a counter of refresh operations started
(each started refresh performs exactly one backend token-issuance
request). -/
structure AuthState where
  tokenInfo : TokenInfo
  tokenRefreshing : Bool
  tokenRefreshPromise : Option Nat
  nextPromiseId : Nat
  refreshCount : Nat
deriving DecidableEq

/-- The initial module state (auth.js lines 22-28): no credential, no
refresh in flight. -/
def initialAuthState : AuthState :=
  { tokenInfo := { endpoint := none, token := none, expiredAt := none },
    tokenRefreshing := false, tokenRefreshPromise := none,
    nextPromiseId := 0, refreshCount := 0 }

/-- JavaScript truthiness of an optional string (`null` and `""` are falsy). -/
def truthyStr : Option String → Bool
  | none => false
  | some s => s ≠ ""

/-- JavaScript truthiness of an optional number (`null` and `0` are falsy). -/
def truthyNat : Option Nat → Bool
  | none => false
  | some n => n ≠ 0

/-- The validity check of `getEndpoint` (auth.js lines 75-76):
`tokenInfo.token && tokenInfo.expiredAt && now < tokenInfo.expiredAt - 300`.
`now` is in seconds.  (For `expiredAt < 300` the JavaScript comparison is
against a negative number and `now < …` is false; truncated `Nat`
subtraction yields the same verdict since `now ≥ 0`.) -/
def isTokenValid (now : Nat) (ti : TokenInfo) : Bool :=
  truthyStr ti.token && truthyNat ti.expiredAt &&
    decide (now < ti.expiredAt.getD 0 - 300)

/-- Result of a caller's first (atomic) segment of `getEndpoint`. -/
inductive CallerStep where
  | cached (e : Option EndpointData)
  | awaiting (pid : Nat)
deriving DecidableEq

/-- The atomic entry segment of `getEndpoint` (auth.js lines 70-155):
return the cached endpoint if the token is valid; else join an in-flight
refresh if `tokenRefreshing && tokenRefreshPromise`; else mark refreshing,
create the refresh promise (issuing one backend request) and return it. -/
def getEndpointStep (now : Nat) (s : AuthState) : CallerStep × AuthState :=
  if isTokenValid now s.tokenInfo then
    (CallerStep.cached s.tokenInfo.endpoint, s)
  else
    match s.tokenRefreshing, s.tokenRefreshPromise with
    | true, some pid => (CallerStep.awaiting pid, s)
    | _, _ =>
      (CallerStep.awaiting s.nextPromiseId,
       { s with tokenRefreshing := true,
                tokenRefreshPromise := some s.nextPromiseId,
                nextPromiseId := s.nextPromiseId + 1,
                refreshCount := s.refreshCount + 1 })

/-- Run the atomic entry segments of several callers in arrival order;
`times` gives each caller's clock reading. -/
def runCallers (times : List Nat) (s : AuthState) : List CallerStep × AuthState :=
  match times with
  | [] => ([], s)
  | t :: ts =>
    let (r, s1) := getEndpointStep t s
    let (rs, s2) := runCallers ts s1
    (r :: rs, s2)

/-- Raw outcome of the refresh body: on success the parsed endpoint record
and the decoded JWT expiry; on failure the inner error message. -/
abbrev RefreshOutcome := Except String (EndpointData × Nat)

/-- Settling of the refresh promise (auth.js lines 139-152): on success the
cache is replaced by the new credential; in both cases the `finally` block
clears `tokenRefreshing` and `tokenRefreshPromise`.  On failure `tokenInfo`
is left untouched. -/
def refreshSettle (result : RefreshOutcome) (s : AuthState) : AuthState :=
  match result with
  | Except.ok (data, exp) =>
    { s with tokenInfo := { endpoint := some data, token := some data.t,
                            expiredAt := some exp },
             tokenRefreshing := false, tokenRefreshPromise := none }
  | Except.error _ =>
    { s with tokenRefreshing := false, tokenRefreshPromise := none }

/-- The value delivered to every awaiter of the refresh promise: the new
endpoint on success, or the error wrapped by the catch block
(`端点获取失败: …`) on failure. -/
def deliver (result : RefreshOutcome) : Except String (Option EndpointData) :=
  match result with
  | Except.ok (data, _) => Except.ok (some data)
  | Except.error m => Except.error ("端点获取失败: " ++ m)

/-! ## Theorems -/

/-- Claim C3, counterexample: with `requestedConcurrency = 1` and `n = 5`
units the effective concurrency is `1`, strictly below `min 5 n = 5`, so
the claimed lower bound "≥ min(5, n) whenever n ≥ 5" fails. -/
theorem c3_counterexample :
    optimalConcurrency 1 5 = 1 ∧ ¬ min 5 5 ≤ optimalConcurrency 1 5 := by
  decide

/-- Claim C3 (amended): for every `requestedConcurrency ≥ 1` and unit count
`n ≥ 1`, the effective concurrency equals
`min(requestedConcurrency, n, max(5, ceil(n/3)))` and lies in `[1, n]`;
it is `≥ min(5, n)` whenever `n ≥ 5` and additionally
`requestedConcurrency ≥ 5`. -/
theorem c3_effective_concurrency_bounds (c n : Nat) (hc : 1 ≤ c) (hn : 1 ≤ n) :
    optimalConcurrency c n = min c (min n (max 5 ((n + 2) / 3))) ∧
    1 ≤ optimalConcurrency c n ∧ optimalConcurrency c n ≤ n ∧
    (5 ≤ n → 5 ≤ c → min 5 n ≤ optimalConcurrency c n) := by
  refine ⟨rfl, ?_, ?_, fun h5n h5c => ?_⟩ <;> unfold optimalConcurrency <;> omega

/-- Witness for `c3_effective_concurrency_bounds` at `c = 7`, `n = 9`. -/
theorem c3_effective_concurrency_bounds_witness :
    optimalConcurrency 7 9 = min 7 (min 9 (max 5 ((9 + 2) / 3))) ∧
    1 ≤ optimalConcurrency 7 9 ∧ optimalConcurrency 7 9 ≤ 9 ∧
    (5 ≤ 9 → 5 ≤ 7 → min 5 9 ≤ optimalConcurrency 7 9) :=
  c3_effective_concurrency_bounds 7 9 (by decide) (by decide)

/-- Claim C9: a call to `getEndpoint` made while the cached credential is
valid at the caller's clock reading returns the cached endpoint immediately
and leaves the whole module state — `tokenInfo`, `tokenRefreshing`,
`tokenRefreshPromise`, and the count of issued refresh requests —
unchanged; in particular it performs no backend I/O and triggers no
refresh. -/
theorem c9_valid_cache_pure_read (now : Nat) (s : AuthState)
    (h : isTokenValid now s.tokenInfo = true) :
    getEndpointStep now s = (CallerStep.cached s.tokenInfo.endpoint, s) := by
  unfold getEndpointStep
  rw [h]
  simp

/-- Witness for `c9_valid_cache_pure_read` on a concrete valid cache. -/
theorem c9_valid_cache_pure_read_witness :
    getEndpointStep 10
      { tokenInfo := { endpoint := some { r := "eastus", t := "tok" },
                       token := some "tok", expiredAt := some 4000 },
        tokenRefreshing := false, tokenRefreshPromise := none,
        nextPromiseId := 3, refreshCount := 1 } =
      (CallerStep.cached (some { r := "eastus", t := "tok" }),
       { tokenInfo := { endpoint := some { r := "eastus", t := "tok" },
                        token := some "tok", expiredAt := some 4000 },
         tokenRefreshing := false, tokenRefreshPromise := none,
         nextPromiseId := 3, refreshCount := 1 }) :=
  c9_valid_cache_pure_read 10 _ (by decide)

/-- Slicing an empty list yields no batches (the batching loop body is
never entered when `chunks.length = 0`). -/
theorem listChunks_nil {α : Type} (e : Nat) : listChunks (α := α) e [] = [] := by
  unfold listChunks
  split <;> rfl

/-- Claim C10: for an empty unit list both modes succeed: buffered mode
returns a 200 `audio/mpeg` response with an empty body having invoked no
synthesis call, and streaming mode writes no bytes and closes the stream
cleanly. -/
theorem c10_empty_chunk_list (synth : Nat → Except String Blob)
    (sched : Nat → Nat) (c : Nat) :
    getVoiceModel synth sched c 0 =
      ({ status := 200, contentType := "audio/mpeg", body := RespBody.raw [] }, []) ∧
    pipeModel synth sched c 0 = (Except.ok (), [WriterCall.close]) := by
  constructor <;>
    simp [getVoiceModel, pipeModel, batchIndices, listChunks_nil, runBatches, pipeLoop]

/-- While a refresh is in flight, every further caller whose validity check
fails joins that refresh: no state change, no new backend request. -/
theorem runCallers_join (times : List Nat) (s : AuthState) (p : Nat)
    (hr : s.tokenRefreshing = true) (hp : s.tokenRefreshPromise = some p)
    (hv : ∀ t ∈ times, isTokenValid t s.tokenInfo = false) :
    runCallers times s = (times.map (fun _ => CallerStep.awaiting p), s) := by
  induction times with
  | nil => rfl
  | cons t ts ih =>
    have hstep : getEndpointStep t s = (CallerStep.awaiting p, s) := by
      simp [getEndpointStep, hv t (by simp), hr, hp]
    simp [runCallers, hstep, ih (fun u hu => hv u (by simp [hu]))]

/-- Claim C1 (singleflight): for any `N ≥ 1` callers of `getEndpoint`
arriving (in any order, at any clock readings) while the cache is empty or
expired and no refresh is in flight, exactly one refresh request is issued
to the backend token-issuance endpoint (`refreshCount` rises by exactly 1);
every caller — the one that started the refresh and all later ones — ends
up awaiting that same single refresh promise, and at the end exactly that
one refresh is still the only one in flight, so two refreshes never
overlap. -/
theorem c1_singleflight (times : List Nat) (s0 : AuthState)
    (hne : times ≠ [])
    (hr : s0.tokenRefreshing = false) (hp : s0.tokenRefreshPromise = none)
    (hv : ∀ t ∈ times, isTokenValid t s0.tokenInfo = false) :
    (runCallers times s0).2.refreshCount = s0.refreshCount + 1 ∧
    (runCallers times s0).1 =
      times.map (fun _ => CallerStep.awaiting s0.nextPromiseId) ∧
    (runCallers times s0).2.tokenRefreshing = true ∧
    (runCallers times s0).2.tokenRefreshPromise = some s0.nextPromiseId ∧
    (runCallers times s0).2.tokenInfo = s0.tokenInfo := by
  cases times with
  | nil => exact absurd rfl hne
  | cons t ts =>
    have hstep : getEndpointStep t s0 =
        (CallerStep.awaiting s0.nextPromiseId,
         { s0 with tokenRefreshing := true,
                   tokenRefreshPromise := some s0.nextPromiseId,
                   nextPromiseId := s0.nextPromiseId + 1,
                   refreshCount := s0.refreshCount + 1 }) := by
      simp [getEndpointStep, hv t (by simp), hr, hp]
    have hjoin := runCallers_join ts
      { s0 with tokenRefreshing := true,
                tokenRefreshPromise := some s0.nextPromiseId,
                nextPromiseId := s0.nextPromiseId + 1,
                refreshCount := s0.refreshCount + 1 }
      s0.nextPromiseId rfl rfl (fun u hu => hv u (by simp [hu]))
    simp [runCallers, hstep, hjoin]

/-- Witness for `c1_singleflight`: three concurrent callers on the initial
empty cache all await promise 0 and exactly one backend request is issued. -/
theorem c1_singleflight_witness :
    (runCallers [100, 100, 101] initialAuthState).2.refreshCount = 0 + 1 ∧
    (runCallers [100, 100, 101] initialAuthState).1 =
      [100, 100, 101].map (fun _ => CallerStep.awaiting 0) ∧
    (runCallers [100, 100, 101] initialAuthState).2.tokenRefreshing = true ∧
    (runCallers [100, 100, 101] initialAuthState).2.tokenRefreshPromise = some 0 ∧
    (runCallers [100, 100, 101] initialAuthState).2.tokenInfo =
      initialAuthState.tokenInfo :=
  c1_singleflight [100, 100, 101] initialAuthState (by decide) rfl rfl
    (fun t _ => by simp [initialAuthState, isTokenValid, truthyStr])

/-- The validity check is antitone in the clock: once it fails it keeps
failing at every later time (the cache content being unchanged). -/
theorem isTokenValid_mono (t0 t : Nat) (ht : t0 ≤ t) (ti : TokenInfo)
    (hv : isTokenValid t0 ti = false) : isTokenValid t ti = false := by
  cases htok : truthyStr ti.token <;> cases hexp : truthyNat ti.expiredAt <;>
    simp [isTokenValid, htok, hexp] at hv ⊢ <;> omega

/-- Claim C7: when the in-flight refresh fails, the `finally` block clears
the refreshing flag and the shared promise while leaving `tokenInfo` as it
was — so no usable credential remains: the validity check, false when the
refresh began, stays false at every later time, and the cache is back in
the "no credential, no refresh in flight" configuration.  Every caller
awaiting that refresh holds the same promise and is released with the same
wrapped error, and neither settling nor delivery issues any new backend
request. -/
theorem c7_refresh_failure (s : AuthState) (msg : String) (t0 : Nat) (p : Nat)
    (hp : s.tokenRefreshPromise = some p)
    (hv : isTokenValid t0 s.tokenInfo = false)
    (waiters : List CallerStep)
    (hw : ∀ w ∈ waiters, w = CallerStep.awaiting p) :
    (refreshSettle (Except.error msg) s).tokenInfo = s.tokenInfo ∧
    (∀ t, t0 ≤ t →
      isTokenValid t (refreshSettle (Except.error msg) s).tokenInfo = false) ∧
    (refreshSettle (Except.error msg) s).tokenRefreshing = false ∧
    (refreshSettle (Except.error msg) s).tokenRefreshPromise = none ∧
    (refreshSettle (Except.error msg) s).refreshCount = s.refreshCount ∧
    waiters.map (fun _ => deliver (Except.error msg)) =
      List.replicate waiters.length
        (Except.error ("端点获取失败: " ++ msg)) := by
  refine ⟨rfl, fun t ht => ?_, rfl, rfl, rfl, ?_⟩
  · exact isTokenValid_mono t0 t ht _ hv
  · simp [deliver, List.map_const]

/-- Witness for `c7_refresh_failure`: a failed refresh from an expired
cache with two waiters. -/
theorem c7_refresh_failure_witness :
    (refreshSettle (Except.error "boom")
      { tokenInfo := { endpoint := some { r := "eastus", t := "old" },
                       token := some "old", expiredAt := some 400 },
        tokenRefreshing := true, tokenRefreshPromise := some 4,
        nextPromiseId := 5, refreshCount := 2 }).tokenInfo =
      { endpoint := some { r := "eastus", t := "old" },
        token := some "old", expiredAt := some 400 } ∧
    (∀ t, 500 ≤ t →
      isTokenValid t (refreshSettle (Except.error "boom")
        { tokenInfo := { endpoint := some { r := "eastus", t := "old" },
                         token := some "old", expiredAt := some 400 },
          tokenRefreshing := true, tokenRefreshPromise := some 4,
          nextPromiseId := 5, refreshCount := 2 }).tokenInfo = false) ∧
    (refreshSettle (Except.error "boom")
      { tokenInfo := { endpoint := some { r := "eastus", t := "old" },
                       token := some "old", expiredAt := some 400 },
        tokenRefreshing := true, tokenRefreshPromise := some 4,
        nextPromiseId := 5, refreshCount := 2 }).tokenRefreshing = false ∧
    (refreshSettle (Except.error "boom")
      { tokenInfo := { endpoint := some { r := "eastus", t := "old" },
                       token := some "old", expiredAt := some 400 },
        tokenRefreshing := true, tokenRefreshPromise := some 4,
        nextPromiseId := 5, refreshCount := 2 }).tokenRefreshPromise = none ∧
    (refreshSettle (Except.error "boom")
      { tokenInfo := { endpoint := some { r := "eastus", t := "old" },
                       token := some "old", expiredAt := some 400 },
        tokenRefreshing := true, tokenRefreshPromise := some 4,
        nextPromiseId := 5, refreshCount := 2 }).refreshCount = 2 ∧
    [CallerStep.awaiting 4, CallerStep.awaiting 4].map
        (fun _ => deliver (Except.error "boom")) =
      List.replicate 2 (Except.error ("端点获取失败: " ++ "boom")) :=
  c7_refresh_failure _ "boom" 500 4 rfl (by decide)
    [CallerStep.awaiting 4, CallerStep.awaiting 4] (by simp)

/-- Dropping a prefix cannot lengthen a list. -/
theorem length_dropWhile_le (p : Char → Bool) (l : List Char) :
    (l.dropWhile p).length ≤ l.length := by
  have h := congrArg List.length (List.takeWhile_append_dropWhile p l)
  simp only [List.length_append] at h
  omega

/-- `trim` only removes characters. -/
theorem trimChars_length_le (l : List Char) : (trimChars l).length ≤ l.length := by
  unfold trimChars
  calc ((l.dropWhile isJsWs).reverse.dropWhile isJsWs).reverse.length
      = ((l.dropWhile isJsWs).reverse.dropWhile isJsWs).length := List.length_reverse _
    _ ≤ (l.dropWhile isJsWs).reverse.length :=
        length_dropWhile_le isJsWs (l.dropWhile isJsWs).reverse
    _ = (l.dropWhile isJsWs).length := List.length_reverse _
    _ ≤ l.length := length_dropWhile_le isJsWs l

/-- The split-with-captured-delimiters is content preserving: joining the
pieces restores the input. -/
theorem splitKeepDelims_flatten (l : List Char) : (splitKeepDelims l).flatten = l := by
  induction l using splitKeepDelims.induct with
  | case1 l h =>
    rw [splitKeepDelims]
    rw [h]
    have := List.takeWhile_append_dropWhile (fun c => !isDelim c) l
    rw [h] at this
    simpa using this
  | case2 l c cs h ih =>
    rw [splitKeepDelims]
    rw [h]
    simp only [List.flatten_cons, ih]
    have h2 := List.takeWhile_append_dropWhile isDelim (c :: cs)
    have h1 := List.takeWhile_append_dropWhile (fun c => !isDelim c) l
    rw [h] at h1
    rw [h2, h1]

/-- Full invariant of the greedy accumulation loop of `smartChunkText`:
the flushed chunks are the trims of a list `gs'` of raw group contents;
group contents plus the pending buffer concatenate to everything consumed;
the buffer is empty only if nothing was consumed; and if every piece (and
every prior group and the prior buffer) fits in `m`, every group and the
buffer still fit. -/
theorem chunkFold_spec (m : Nat) (sents : List (List Char)) :
    ∀ (gs parts : List (List Char)),
    ∃ (gs' parts' : List (List Char)),
      sents.foldl (chunkStep m) (gs.map trimChars, parts, parts.flatten.length) =
        (gs'.map trimChars, parts', parts'.flatten.length) ∧
      gs'.flatten ++ parts'.flatten = gs.flatten ++ (parts.flatten ++ sents.flatten) ∧
      (parts' = [] → parts = [] ∧ sents = []) ∧
      ((∀ p ∈ sents, p.length ≤ m) → (∀ g ∈ gs, g.length ≤ m) →
        parts.flatten.length ≤ m →
        (∀ g ∈ gs', g.length ≤ m) ∧ parts'.flatten.length ≤ m) := by
  induction sents with
  | nil =>
    intro gs parts
    exact ⟨gs, parts, rfl, by simp, fun h => ⟨h, rfl⟩, fun _ hg hp => ⟨hg, hp⟩⟩
  | cons p rest ih =>
    intro gs parts
    by_cases hfit : parts.flatten.length + p.length ≤ m
    · have hstep : chunkStep m (gs.map trimChars, parts, parts.flatten.length) p =
          (gs.map trimChars, parts ++ [p], (parts ++ [p]).flatten.length) := by
        simp only [chunkStep]
        rw [if_pos hfit]
        simp
      obtain ⟨gs', parts', heq, hcontent, hempty, hbound⟩ := ih gs (parts ++ [p])
      refine ⟨gs', parts', ?_, ?_, ?_, ?_⟩
      · rw [List.foldl_cons, hstep]
        exact heq
      · rw [hcontent]
        simp
      · intro hpe2
        rcases hempty hpe2 with ⟨hap, _⟩
        exact absurd hap (by simp)
      · intro hs hg hp
        refine hbound (fun q hq => hs q (by simp [hq])) hg ?_
        simpa using hfit
    · by_cases hpe : parts = []
      · subst hpe
        have hstep : chunkStep m (List.map trimChars gs, [], ([] : List (List Char)).flatten.length) p =
            (gs.map trimChars, [p], [p].flatten.length) := by
          simp only [chunkStep]
          rw [if_neg hfit]
          simp
        obtain ⟨gs', parts', heq, hcontent, hempty, hbound⟩ := ih gs [p]
        refine ⟨gs', parts', ?_, ?_, ?_, ?_⟩
        · rw [List.foldl_cons, hstep]
          exact heq
        · rw [hcontent]
          simp
        · intro hpe2
          rcases hempty hpe2 with ⟨hap, _⟩
          exact absurd hap (by simp)
        · intro hs hg _
          simp only [List.flatten_nil, List.length_nil, Nat.zero_add] at hfit
          exact absurd (hs p (by simp)) (by omega)
      · have hstep : chunkStep m (gs.map trimChars, parts, parts.flatten.length) p =
            ((gs ++ [parts.flatten]).map trimChars, [p], [p].flatten.length) := by
          simp only [chunkStep]
          rw [if_neg hfit, if_neg hpe]
          simp
        obtain ⟨gs', parts', heq, hcontent, hempty, hbound⟩ := ih (gs ++ [parts.flatten]) [p]
        refine ⟨gs', parts', ?_, ?_, ?_, ?_⟩
        · rw [List.foldl_cons, hstep]
          exact heq
        · rw [hcontent]
          simp
        · intro hpe2
          rcases hempty hpe2 with ⟨hap, _⟩
          exact absurd hap (by simp)
        · intro hs hg hp
          refine hbound (fun q hq => hs q (by simp [hq])) ?_ ?_
          · intro g hgmem
            rcases List.mem_append.mp hgmem with hgl | hgr
            · exact hg g hgl
            · simp only [List.mem_singleton] at hgr
              subst hgr
              exact hp
          · simpa using hs p (by simp)

/-- For non-empty input the boundary-aware pass always flushes at least one
chunk: its result is the trims of a non-empty list of raw groups whose
concatenation is the input, and the fixed-width fallback branch is never
taken.  If every split piece fits in `m`, every raw group fits in `m`. -/
theorem smartChunkText_boundary (text : List Char) (m : Nat) (hne : text ≠ []) :
    ∃ (gs' parts' : List (List Char)),
      gs'.flatten ++ parts'.flatten = text ∧
      boundaryChunks text m = (gs' ++ [parts'.flatten]).map trimChars ∧
      smartChunkText text m =
        ((gs' ++ [parts'.flatten]).map trimChars).filter (fun c => c.length > 0) ∧
      ((∀ p ∈ splitKeepDelims text, p.length ≤ m) →
        ∀ g ∈ gs' ++ [parts'.flatten], g.length ≤ m) := by
  obtain ⟨gs', parts', heq, hcontent, hempty, hbound⟩ :=
    chunkFold_spec m (splitKeepDelims text) [] []
  simp only [List.map_nil, List.flatten_nil, List.length_nil] at heq hcontent
  rw [splitKeepDelims_flatten] at hcontent
  simp only [List.nil_append] at hcontent
  have hpne : parts' ≠ [] := by
    intro hpe
    rcases hempty hpe with ⟨_, hsents⟩
    apply hne
    rw [← splitKeepDelims_flatten text, hsents]
    rfl
  have hb : boundaryChunks text m = (gs' ++ [parts'.flatten]).map trimChars := by
    unfold boundaryChunks
    rw [heq]
    show (if parts' = [] then List.map trimChars gs'
          else List.map trimChars gs' ++ [trimChars parts'.flatten]) = _
    rw [if_neg hpne]
    simp
  refine ⟨gs', parts', hcontent, hb, ?_, ?_⟩
  · unfold smartChunkText
    rw [if_neg hne, hb, if_neg (by simp)]
  · intro hpieces
    have hball := hbound hpieces (by simp) (by simp)
    intro g hg
    rcases List.mem_append.mp hg with hgl | hgr
    · exact hball.1 g hgl
    · simp only [List.mem_singleton] at hgr
      subst hgr
      exact hball.2

/-- Claim C8: for every non-empty text, the units of `smartChunkText` are
exactly the per-group trims (with all-whitespace groups dropped by the
final filter) of a non-empty sequence of groups whose concatenation is the
original text — so apart from the whitespace removed by per-unit trimming,
no character is lost or duplicated and delimiters are retained; for empty
input the result is the empty sequence. -/
theorem c8_content_reconstruction (text : List Char) (m : Nat) :
    (text ≠ [] →
      ∃ groups : List (List Char),
        groups ≠ [] ∧
        groups.flatten = text ∧
        smartChunkText text m =
          (groups.map trimChars).filter (fun c => c.length > 0)) ∧
    smartChunkText [] m = [] := by
  constructor
  · intro hne
    obtain ⟨gs', parts', hcontent, _, hsmart, _⟩ := smartChunkText_boundary text m hne
    exact ⟨gs' ++ [parts'.flatten], by simp, by simpa using hcontent, hsmart⟩
  · simp [smartChunkText]

/-- Witness for `c8_content_reconstruction` at `text = "ab"`, `m = 300`. -/
theorem c8_content_reconstruction_witness :
    (∃ groups : List (List Char),
      groups ≠ [] ∧
      groups.flatten = ['a', 'b'] ∧
      smartChunkText ['a', 'b'] 300 =
        (groups.map trimChars).filter (fun c => c.length > 0)) ∧
    smartChunkText [] 300 = [] :=
  ⟨(c8_content_reconstruction ['a', 'b'] 300).1 (by decide),
   (c8_content_reconstruction ['a', 'b'] 300).2⟩

/-- Claim C4, counterexample: `smartChunkText "aa" 1` returns the single
over-length unit `"aa"` (a delimiter-free run longer than `maxLength` is
flushed whole), while the boundary-aware pass produced a unit, so the
fixed-width fallback was *not* taken — refuting "no unit exceeds maxLength
except when the boundary-aware pass yields zero units and the fallback is
taken". -/
theorem c4_counterexample :
    smartChunkText ['a', 'a'] 1 = [['a', 'a']] ∧
    boundaryChunks ['a', 'a'] 1 ≠ [] ∧
    ¬ (∀ u ∈ smartChunkText ['a', 'a'] 1,
        u.length ≤ 1 ∨
          (boundaryChunks ['a', 'a'] 1 = [] ∧ (['a', 'a'] : List Char) ≠ [])) := by
  have heval : smartChunkText ['a', 'a'] 1 = [['a', 'a']] := by
    unfold smartChunkText boundaryChunks
    rw [splitKeepDelims]
    decide
  have hb : boundaryChunks ['a', 'a'] 1 = [['a', 'a']] := by
    unfold boundaryChunks
    rw [splitKeepDelims]
    decide
  refine ⟨heval, by rw [hb]; decide, ?_⟩
  intro hall
  have hmem : (['a', 'a'] : List Char) ∈ smartChunkText ['a', 'a'] 1 := by
    rw [heval]
    exact List.mem_singleton.mpr rfl
  rcases hall ['a', 'a'] hmem with hlen | ⟨hfb, _⟩
  · exact absurd hlen (by decide)
  · rw [hb] at hfb
    exact absurd hfb (by decide)

/-- Claim C4 (amended): every unit returned by `smartChunkText` has length
`≤ maxLength` provided every piece produced by the delimiter split fits in
`maxLength`; an over-length unit can only come from a single over-length
split piece (for non-empty input the fixed-width fallback is never taken,
so the claimed fallback exception does not occur). -/
theorem c4_unit_length_bound (text : List Char) (m : Nat)
    (hpieces : ∀ p ∈ splitKeepDelims text, p.length ≤ m) :
    ∀ u ∈ smartChunkText text m, u.length ≤ m := by
  by_cases hne : text = []
  · subst hne
    intro u hu
    simp [smartChunkText] at hu
  · obtain ⟨gs', parts', _, _, hsmart, hbound⟩ := smartChunkText_boundary text m hne
    rw [hsmart]
    intro u hu
    have hu' := List.mem_of_mem_filter hu
    rcases List.mem_map.mp hu' with ⟨g, hg, rfl⟩
    calc (trimChars g).length ≤ g.length := trimChars_length_le g
      _ ≤ m := hbound hpieces g hg

/-- Witness for `c4_unit_length_bound` at `text = "ab"`, `m = 3`. -/
theorem c4_unit_length_bound_witness :
    (∀ p ∈ splitKeepDelims ['a', 'b'], p.length ≤ 3) ∧
    (∀ u ∈ smartChunkText ['a', 'b'] 3, u.length ≤ 3) :=
  ⟨by rw [splitKeepDelims]; decide,
   c4_unit_length_bound ['a', 'b'] 3 (by rw [splitKeepDelims]; decide)⟩

/-- `Promise.all` over all-successful tasks never rejects. -/
theorem firstRejection_all_ok (tasks : List (Nat × Except String Blob))
    (h : ∀ x ∈ tasks, x.2.isOk = true) : firstRejection tasks = none := by
  induction tasks with
  | nil => rfl
  | cons x rest ih =>
    obtain ⟨time, r⟩ := x
    cases hr : r with
    | ok v =>
      rw [firstRejection]
      exact ih (fun y hy => h y (by simp [hy]))
    | error m =>
      have hcon := h (time, r) (by simp)
      rw [hr] at hcon
      simp [Except.isOk, Except.toBool] at hcon

/-- A successful `Except` is an `ok`. -/
theorem exists_ok_of_isOk {r : Except String Blob} (h : r.isOk = true) :
    ∃ v, r = Except.ok v := by
  cases r with
  | ok v => exact ⟨v, rfl⟩
  | error m => simp [Except.isOk, Except.toBool] at h

/-- When all successes, `filterMap toOption` is just projection. -/
theorem filterMap_toOption_all_ok (tasks : List (Nat × Except String Blob))
    (h : ∀ x ∈ tasks, x.2.isOk = true) :
    tasks.filterMap (fun t => t.2.toOption) = tasks.map (fun t => blobOf t.2) := by
  induction tasks with
  | nil => rfl
  | cons x rest ih =>
    obtain ⟨v, hv⟩ := exists_ok_of_isOk (h x (by simp))
    rw [List.filterMap_cons, List.map_cons, ih (fun y hy => h y (by simp [hy])), hv]
    rfl

/-- `Promise.all` over all-successful tasks resolves with the values in
submission order. -/
theorem promiseAll_all_ok (tasks : List (Nat × Except String Blob))
    (h : ∀ x ∈ tasks, x.2.isOk = true) :
    promiseAll tasks = Except.ok (tasks.map (fun t => blobOf t.2)) := by
  unfold promiseAll
  rw [firstRejection_all_ok tasks h, filterMap_toOption_all_ok tasks h]

/-- When exactly one submitted task of a batch fails, the earliest
rejection is that task's, whatever the completion schedule. -/
theorem firstRejection_unique_err (sched : Nat → Nat) (synth : Nat → Except String Blob)
    (b : List Nat) (j : Nat) (msg : String)
    (hnd : b.Nodup) (hjb : j ∈ b) (hj : synth j = Except.error msg)
    (hok : ∀ i ∈ b, i ≠ j → (synth i).isOk = true) :
    firstRejection (b.map (fun i => (sched i, synth i))) = some (sched j, msg) := by
  induction b with
  | nil => simp at hjb
  | cons i rest ih =>
    rw [List.map_cons]
    by_cases hij : i = j
    · subst hij
      have hrest_ok : ∀ x ∈ rest.map (fun i => (sched i, synth i)), x.2.isOk = true := by
        intro x hx
        rcases List.mem_map.mp hx with ⟨k, hk, rfl⟩
        refine hok k (by simp [hk]) ?_
        intro hkj
        subst hkj
        exact (List.nodup_cons.mp hnd).1 hk
      rw [hj, firstRejection, firstRejection_all_ok _ hrest_ok]
    · have hjrest : j ∈ rest := by
        rcases List.mem_cons.mp hjb with h | h
        · exact absurd h.symm hij
        · exact h
      have hrec := ih (List.nodup_cons.mp hnd).2 hjrest
        (fun k hk hkj => hok k (by simp [hk]) hkj)
      obtain ⟨v, hv⟩ := exists_ok_of_isOk (hok i (by simp) hij)
      rw [hv, firstRejection, hrec]

/-- When exactly one submitted task of a batch fails, `Promise.all`
rejects with that task's error, whatever the completion schedule. -/
theorem promiseAll_unique_err (sched : Nat → Nat) (synth : Nat → Except String Blob)
    (b : List Nat) (j : Nat) (msg : String)
    (hnd : b.Nodup) (hjb : j ∈ b) (hj : synth j = Except.error msg)
    (hok : ∀ i ∈ b, i ≠ j → (synth i).isOk = true) :
    promiseAll (b.map (fun i => (sched i, synth i))) = Except.error msg := by
  unfold promiseAll
  rw [firstRejection_unique_err sched synth b j msg hnd hjb hj hok]

/-- The batch loop over all-successful batches collects every unit's bytes
in submission order and invokes every unit exactly once, in order. -/
theorem runBatches_all_ok (synth : Nat → Except String Blob) (sched : Nat → Nat)
    (bs : List (List Nat)) (h : ∀ i ∈ bs.flatten, (synth i).isOk = true) :
    runBatches synth sched bs =
      (Except.ok (bs.flatten.map (fun i => blobOf (synth i))), bs.flatten) := by
  induction bs with
  | nil => rfl
  | cons b rest ih =>
    have hball : ∀ x ∈ b.map (fun i => (sched i, synth i)), x.2.isOk = true := by
      intro x hx
      rcases List.mem_map.mp hx with ⟨k, hk, rfl⟩
      exact h k (by rw [List.flatten_cons]; exact List.mem_append_left _ hk)
    rw [runBatches, promiseAll_all_ok _ hball,
      ih (fun i hi => h i (by rw [List.flatten_cons]; exact List.mem_append_right _ hi))]
    simp [Except.map, List.map_map, Function.comp_def]

/-- If every batch before `b` succeeds wholly and within `b` exactly the
unit `j` fails, the batch loop stops at `b` with `j`'s error having invoked
exactly the units of the batches up to and including `b`. -/
theorem runBatches_err (synth : Nat → Except String Blob) (sched : Nat → Nat)
    (msg : String) (j : Nat) (hj : synth j = Except.error msg) :
    ∀ (pre : List (List Nat)) (b : List Nat) (post : List (List Nat)),
    (∀ i ∈ pre.flatten, (synth i).isOk = true) →
    b.Nodup → j ∈ b → (∀ i ∈ b, i ≠ j → (synth i).isOk = true) →
    runBatches synth sched (pre ++ b :: post) =
      (Except.error msg, pre.flatten ++ b) := by
  intro pre
  induction pre with
  | nil =>
    intro b post _ hnd hjb hok
    rw [List.nil_append, runBatches,
      promiseAll_unique_err sched synth b j msg hnd hjb hj hok]
    simp
  | cons p rest ih =>
    intro b post hpre hnd hjb hok
    have hpball : ∀ x ∈ p.map (fun i => (sched i, synth i)), x.2.isOk = true := by
      intro x hx
      rcases List.mem_map.mp hx with ⟨k, hk, rfl⟩
      exact hpre k (by rw [List.flatten_cons]; exact List.mem_append_left _ hk)
    rw [List.cons_append, runBatches, promiseAll_all_ok _ hpball,
      ih b post (fun i hi => hpre i (by rw [List.flatten_cons]; exact List.mem_append_right _ hi)) hnd hjb hok]
    simp [Except.map]

/-- The streaming batch loop over all-successful batches writes every
unit's bytes in submission order. -/
theorem pipeLoop_all_ok (synth : Nat → Except String Blob) (sched : Nat → Nat)
    (bs : List (List Nat)) (h : ∀ i ∈ bs.flatten, (synth i).isOk = true) :
    pipeLoop synth sched bs =
      (Except.ok (), bs.flatten.map (fun i => WriterCall.write (blobOf (synth i)))) := by
  induction bs with
  | nil => rfl
  | cons b rest ih =>
    have hball : ∀ x ∈ b.map (fun i => (sched i, synth i)), x.2.isOk = true := by
      intro x hx
      rcases List.mem_map.mp hx with ⟨k, hk, rfl⟩
      exact h k (by rw [List.flatten_cons]; exact List.mem_append_left _ hk)
    rw [pipeLoop, promiseAll_all_ok _ hball,
      ih (fun i hi => h i (by rw [List.flatten_cons]; exact List.mem_append_right _ hi))]
    simp [Except.map, List.map_map, Function.comp_def]

/-- If every batch before `b` succeeds wholly and within `b` exactly the
unit `j` fails, the streaming loop stops at `b` with `j`'s error, having
written exactly the bytes of the batches before `b`. -/
theorem pipeLoop_err (synth : Nat → Except String Blob) (sched : Nat → Nat)
    (msg : String) (j : Nat) (hj : synth j = Except.error msg) :
    ∀ (pre : List (List Nat)) (b : List Nat) (post : List (List Nat)),
    (∀ i ∈ pre.flatten, (synth i).isOk = true) →
    b.Nodup → j ∈ b → (∀ i ∈ b, i ≠ j → (synth i).isOk = true) →
    pipeLoop synth sched (pre ++ b :: post) =
      (Except.error msg,
       pre.flatten.map (fun i => WriterCall.write (blobOf (synth i)))) := by
  intro pre
  induction pre with
  | nil =>
    intro b post _ hnd hjb hok
    rw [List.nil_append, pipeLoop,
      promiseAll_unique_err sched synth b j msg hnd hjb hj hok]
    simp
  | cons p rest ih =>
    intro b post hpre hnd hjb hok
    have hpball : ∀ x ∈ p.map (fun i => (sched i, synth i)), x.2.isOk = true := by
      intro x hx
      rcases List.mem_map.mp hx with ⟨k, hk, rfl⟩
      exact hpre k (by rw [List.flatten_cons]; exact List.mem_append_left _ hk)
    rw [List.cons_append, pipeLoop, promiseAll_all_ok _ hpball,
      ih b post (fun i hi => hpre i (by rw [List.flatten_cons]; exact List.mem_append_right _ hi)) hnd hjb hok]
    simp [Except.map, List.map_map, Function.comp_def]

/-- Concatenating the batches restores the unit list. -/
theorem listChunks_flatten {α : Type} (e : Nat) (he : 1 ≤ e) (l : List α) :
    (listChunks e l).flatten = l := by
  induction l using listChunks.induct e with
  | case1 x h0 => omega
  | case2 h0 => rw [listChunks_nil]; rfl
  | case3 h0 c cs ih =>
    rw [listChunks, if_neg h0, List.flatten_cons, ih, List.take_append_drop]

/-- Every batch is non-empty and no larger than `e`. -/
theorem listChunks_batch_size {α : Type} (e : Nat) (he : 1 ≤ e) (l : List α) :
    ∀ b ∈ listChunks e l, 0 < b.length ∧ b.length ≤ e := by
  induction l using listChunks.induct e with
  | case1 x h0 => omega
  | case2 h0 => rw [listChunks_nil]; intro b hb; simp at hb
  | case3 h0 c cs ih =>
    rw [listChunks, if_neg h0]
    intro b hb
    rcases List.mem_cons.mp hb with hb | hb
    · subst hb
      constructor
      · simp [List.length_take]; omega
      · simp [List.length_take]
    · exact ih b hb

/-- The first `k` batches hold exactly the first `e * k` units. -/
theorem listChunks_take_flatten {α : Type} (e : Nat) (he : 1 ≤ e) (k : Nat) :
    ∀ l : List α, (((listChunks e l).take k).flatten) = l.take (e * k) := by
  induction k with
  | zero => intro l; simp
  | succ k ihk =>
    intro l
    cases l with
    | nil => rw [listChunks_nil]; simp
    | cons c cs =>
      rw [listChunks, if_neg (by omega), List.take_succ_cons, List.flatten_cons, ihk]
      have hmul : e * (k + 1) = e + e * k := by ring
      rw [hmul, List.take_add]

/-- Dropping `k` batches is batching the units after the first `e * k`. -/
theorem listChunks_drop {α : Type} (e : Nat) (he : 1 ≤ e) (k : Nat) :
    ∀ l : List α, (listChunks e l).drop k = listChunks e (l.drop (e * k)) := by
  induction k with
  | zero => intro l; simp
  | succ k ihk =>
    intro l
    cases l with
    | nil => rw [listChunks_nil]; simp [listChunks_nil]
    | cons c cs =>
      rw [listChunks, if_neg (by omega), List.drop_succ_cons, ihk, List.drop_drop]
      have hmul : e + e * k = e * (k + 1) := by ring
      rw [hmul]

/-- Unfolding one batch for a non-empty list and non-zero width. -/
theorem listChunks_cons_eq {α : Type} (e : Nat) (he : e ≠ 0) (l : List α) (hl : l ≠ []) :
    listChunks e l = l.take e :: listChunks e (l.drop e) := by
  rw [listChunks.eq_def, if_neg he]
  cases l with
  | nil => exact absurd rfl hl
  | cons c cs => rfl

/-- Claim C6: for every unit count, every completion schedule of the
per-unit promises and both modes, the audio output sequence follows the
input order: units are partitioned into consecutive batches of the
effective concurrency's size (each batch non-empty, of size ≤ effective,
their concatenation the full index sequence in order); buffered mode
returns exactly the per-unit bytes concatenated in input order (and invokes
the units in input order), and streaming mode writes the per-unit bytes to
the stream in input order before the one clean close — independently of
the completion schedule `sched`, because `Promise.all` collects results in
submission order, not completion order. -/
theorem c6_output_order (synth : Nat → Except String Blob) (sched : Nat → Nat)
    (c n : Nat) (hc : 1 ≤ c)
    (hok : ∀ i, i < n → (synth i).isOk = true) :
    getVoiceModel synth sched c n =
      ({ status := 200, contentType := "audio/mpeg",
         body := RespBody.raw (((List.range n).map (fun i => blobOf (synth i))).flatten) },
       List.range n) ∧
    pipeModel synth sched c n =
      (Except.ok (),
       (List.range n).map (fun i => WriterCall.write (blobOf (synth i)))
         ++ [WriterCall.close]) ∧
    (batchIndices (optimalConcurrency c n) n).flatten = List.range n ∧
    (∀ b ∈ batchIndices (optimalConcurrency c n) n,
      0 < b.length ∧ b.length ≤ optimalConcurrency c n) := by
  by_cases hn : n = 0
  · subst hn
    refine ⟨?_, ?_, ?_, ?_⟩
    · simp [getVoiceModel, batchIndices, listChunks_nil, runBatches]
    · simp [pipeModel, batchIndices, listChunks_nil, pipeLoop]
    · simp [batchIndices, listChunks_nil]
    · simp [batchIndices, listChunks_nil]
  · have he : 1 ≤ optimalConcurrency c n := by
      unfold optimalConcurrency
      omega
    have hflat : (batchIndices (optimalConcurrency c n) n).flatten = List.range n :=
      listChunks_flatten _ he _
    have hballs : ∀ i ∈ (batchIndices (optimalConcurrency c n) n).flatten,
        (synth i).isOk = true := by
      intro i hi
      rw [hflat] at hi
      exact hok i (List.mem_range.mp hi)
    refine ⟨?_, ?_, hflat, listChunks_batch_size _ he _⟩
    · unfold getVoiceModel
      rw [runBatches_all_ok synth sched _ hballs, hflat]
    · unfold pipeModel
      rw [pipeLoop_all_ok synth sched _ hballs, hflat]

/-- Witness for `c6_output_order`: 7 units at requested concurrency 3
(effective 3, batches `[0,1,2], [3,4,5], [6]`) with a completion schedule
that finishes later units first. -/
theorem c6_output_order_witness :
    (getVoiceModel (fun i => Except.ok [i]) (fun i => 10 - i) 3 7 =
      ({ status := 200, contentType := "audio/mpeg",
         body := RespBody.raw
           (((List.range 7).map (fun i => blobOf ((fun i => Except.ok [i]) i))).flatten) },
       List.range 7) ∧
    pipeModel (fun i => Except.ok [i]) (fun i => 10 - i) 3 7 =
      (Except.ok (),
       (List.range 7).map
           (fun i => WriterCall.write (blobOf ((fun i => Except.ok [i]) i)))
         ++ [WriterCall.close]) ∧
    (batchIndices (optimalConcurrency 3 7) 7).flatten = List.range 7 ∧
    (∀ b ∈ batchIndices (optimalConcurrency 3 7) 7,
      0 < b.length ∧ b.length ≤ optimalConcurrency 3 7)) ∧
    batchIndices (optimalConcurrency 3 7) 7 = [[0, 1, 2], [3, 4, 5], [6]] :=
  ⟨c6_output_order (fun i => Except.ok [i]) (fun i => 10 - i) 3 7 (by decide)
      (fun i _ => rfl),
   by
    unfold batchIndices
    rw [show optimalConcurrency 3 7 = 3 from by decide,
      listChunks_cons_eq 3 (by decide) (List.range 7) (by decide),
      listChunks_cons_eq 3 (by decide) ((List.range 7).drop 3) (by decide),
      listChunks_cons_eq 3 (by decide) (((List.range 7).drop 3).drop 3) (by decide),
      show (((List.range 7).drop 3).drop 3).drop 3 = ([] : List Nat) from by decide,
      listChunks_nil]
    decide⟩

/-- Claim C2: if in buffered mode exactly one unit `j` fails (all other
units would succeed), the whole `getVoice` operation fails with that
unit's error — the response is the 500 `errorResponse` carrying `j`'s
error message — and the trace of invoked units is exactly the consecutive
batches up to and including `j`'s batch: every such unit is invoked
exactly once (no retry) and no unit of any later batch is ever invoked. -/
theorem c2_fail_fast (synth : Nat → Except String Blob) (sched : Nat → Nat)
    (c n j : Nat) (msg : String)
    (hc : 1 ≤ c) (hj : j < n) (hfail : synth j = Except.error msg)
    (hok : ∀ i, i < n → i ≠ j → (synth i).isOk = true) :
    getVoiceModel synth sched c n =
      (errorResponse ("非流式 TTS 失败: " ++ msg) 500 "tts_generation_error",
       List.range (min (optimalConcurrency c n * (j / optimalConcurrency c n)
         + optimalConcurrency c n) n)) ∧
    (getVoiceModel synth sched c n).2.Nodup ∧
    (∀ i ∈ (getVoiceModel synth sched c n).2,
      i < optimalConcurrency c n * (j / optimalConcurrency c n)
        + optimalConcurrency c n) := by
  have hn : 1 ≤ n := by omega
  set e := optimalConcurrency c n with hedef
  have he : 1 ≤ e := by
    rw [hedef]
    unfold optimalConcurrency
    omega
  set k := j / e with hkdef
  have hek_le : e * k ≤ j := by
    rw [hkdef, Nat.mul_comm]
    exact Nat.div_mul_le_self j e
  have hj_lt : j < e * k + e := by
    have hmod := Nat.mod_lt j (show 0 < e by omega)
    have hdm := Nat.div_add_mod j e
    rw [hkdef]
    omega
  -- the failing batch
  have hl'len : ((List.range n).drop (e * k)).length = n - e * k := by simp
  have hl'ne : (List.range n).drop (e * k) ≠ [] := by
    intro h0
    have := congrArg List.length h0
    simp at this
    omega
  have hbs : batchIndices e n =
      (batchIndices e n).take k ++
        (((List.range n).drop (e * k)).take e ::
          listChunks e (((List.range n).drop (e * k)).drop e)) := by
    conv_lhs => rw [← List.take_append_drop k (batchIndices e n)]
    congr 1
    rw [show (batchIndices e n).drop k = listChunks e ((List.range n).drop (e * k)) from
      listChunks_drop e he k (List.range n)]
    exact listChunks_cons_eq e (by omega) _ hl'ne
  have hpre_flat : ((batchIndices e n).take k).flatten = (List.range n).take (e * k) :=
    listChunks_take_flatten e he k (List.range n)
  have hpre_ok : ∀ i ∈ ((batchIndices e n).take k).flatten, (synth i).isOk = true := by
    intro i hi
    rw [hpre_flat, List.take_range] at hi
    have hilt := List.mem_range.mp hi
    exact hok i (by omega) (by omega)
  have hbsub : ((((List.range n).drop (e * k)).take e)).Sublist (List.range n) :=
    (List.take_sublist _ _).trans (List.drop_sublist _ _)
  have hbnd : (((List.range n).drop (e * k)).take e).Nodup :=
    hbsub.nodup (List.nodup_range n)
  have hidx : j - e * k < (((List.range n).drop (e * k)).take e).length := by
    simp only [List.length_take, hl'len]
    omega
  have hget : (((List.range n).drop (e * k)).take e).get ⟨j - e * k, hidx⟩ = j := by
    simp only [List.get_eq_getElem, List.getElem_take, List.getElem_drop, List.getElem_range]
    omega
  have hjin : j ∈ ((List.range n).drop (e * k)).take e := by
    rw [← hget]
    exact List.get_mem _ _ hidx
  have hbok : ∀ i ∈ ((List.range n).drop (e * k)).take e, i ≠ j →
      (synth i).isOk = true := by
    intro i hi hne
    exact hok i (List.mem_range.mp (hbsub.subset hi)) hne
  have hrun := runBatches_err synth sched msg j hfail
    ((batchIndices e n).take k) (((List.range n).drop (e * k)).take e)
    (listChunks e (((List.range n).drop (e * k)).drop e))
    hpre_ok hbnd hjin hbok
  have htr : ((batchIndices e n).take k).flatten ++
      ((List.range n).drop (e * k)).take e =
      List.range (min (e * k + e) n) := by
    rw [hpre_flat, ← List.take_add, List.take_range]
  have hmain : getVoiceModel synth sched c n =
      (errorResponse ("非流式 TTS 失败: " ++ msg) 500 "tts_generation_error",
       List.range (min (e * k + e) n)) := by
    unfold getVoiceModel
    rw [← hedef, hbs, hrun, htr]
  refine ⟨hmain, ?_, ?_⟩
  · rw [hmain]
    exact List.nodup_range _
  · intro i hi
    rw [hmain] at hi
    have := List.mem_range.mp hi
    omega

/-- Witness for `c2_fail_fast`: two units, the second failing. -/
theorem c2_fail_fast_witness :
    getVoiceModel (fun i => if i = 0 then Except.ok [7] else Except.error "boom")
        (fun _ => 0) 1 2 =
      (errorResponse ("非流式 TTS 失败: " ++ "boom") 500 "tts_generation_error",
       List.range (min (optimalConcurrency 1 2 * (1 / optimalConcurrency 1 2)
         + optimalConcurrency 1 2) 2)) ∧
    (getVoiceModel (fun i => if i = 0 then Except.ok [7] else Except.error "boom")
        (fun _ => 0) 1 2).2.Nodup ∧
    (∀ i ∈ (getVoiceModel (fun i => if i = 0 then Except.ok [7] else Except.error "boom")
        (fun _ => 0) 1 2).2,
      i < optimalConcurrency 1 2 * (1 / optimalConcurrency 1 2)
        + optimalConcurrency 1 2) :=
  c2_fail_fast (fun i => if i = 0 then Except.ok [7] else Except.error "boom")
    (fun _ => 0) 1 2 1 "boom" (by decide) (by decide) rfl
    (fun i hi hne => by
      have hi0 : i = 0 := by omega
      subst hi0
      rfl)

/-- The streaming loop itself only ever issues `write` calls. -/
theorem pipeLoop_writes (synth : Nat → Except String Blob) (sched : Nat → Nat)
    (bs : List (List Nat)) :
    ∀ w ∈ (pipeLoop synth sched bs).2, ∃ b, w = WriterCall.write b := by
  induction bs with
  | nil =>
    intro w hw
    simp [pipeLoop] at hw
  | cons b rest ih =>
    intro w hw
    cases hpa : promiseAll (b.map (fun i => (sched i, synth i))) with
    | error m =>
      rw [pipeLoop, hpa] at hw
      simp at hw
    | ok blobs =>
      cases hrec : pipeLoop synth sched rest with
      | mk r tr =>
        rw [pipeLoop, hpa, hrec] at hw
        rcases List.mem_append.mp hw with hwl | hwr
        · rcases List.mem_map.mp hwl with ⟨blob, _, rfl⟩
          exact ⟨blob, rfl⟩
        · rw [hrec] at ih
          exact ih w hwr

/-- A sequence of pure writes leaves the stream open. -/
theorem foldl_writes_opened (ws : List WriterCall)
    (h : ∀ w ∈ ws, ∃ b, w = WriterCall.write b) :
    ws.foldl applyWriterCall WriterState.opened = WriterState.opened := by
  induction ws with
  | nil => rfl
  | cons w rest ih =>
    obtain ⟨b, rfl⟩ := h w (by simp)
    rw [List.foldl_cons]
    exact ih (fun w hw => h w (by simp [hw]))

/-- One unit at requested concurrency 1 forms a single one-element batch. -/
theorem batchIndices_one : batchIndices (optimalConcurrency 1 1) 1 = [[0]] := by
  unfold batchIndices
  rw [show optimalConcurrency 1 1 = 1 from by decide,
    listChunks_cons_eq 1 (by decide) (List.range 1) (by decide),
    show (List.range 1).drop 1 = ([] : List Nat) from by decide, listChunks_nil]
  decide

/-- Claim C5, counterexample: with a single unit whose synthesis fails,
`pipeChunksToStream` calls `writer.abort(error)` in the `catch` block and
then additionally calls `writer.close()` in the `finally` block: the
failure-path trace contains one `close` call, refuting "aborted … and not
additionally closed". -/
theorem c5_counterexample :
    (pipeModel (fun _ => Except.error "x") (fun _ => 0) 1 1).1 =
      Except.error ("流式处理失败: " ++ "x") ∧
    (pipeModel (fun _ => Except.error "x") (fun _ => 0) 1 1).2 =
      [WriterCall.abortW "x", WriterCall.close] ∧
    ¬ ((pipeModel (fun _ => Except.error "x") (fun _ => 0) 1 1).2.count
        WriterCall.close = 0) := by
  refine ⟨?_, ?_, ?_⟩
  · unfold pipeModel
    rw [batchIndices_one]
    rfl
  · unfold pipeModel
    rw [batchIndices_one]
    rfl
  · unfold pipeModel
    rw [batchIndices_one]
    decide

/-- Claim C5 (amended): the writer-call trace of `pipeChunksToStream`
terminates exactly one way per path, but the failure path issues a
redundant `close` after the `abort`: on success the trace is writes
followed by one `close` and the channel ends `closed`; on a synthesis
failure the trace is writes followed by one `abort` with the failing
unit's error and then one `close` call — which is a no-op on the
already-errored channel, so the channel still ends `errored` with that
error, and each of close/abort takes effect at most once. -/
theorem c5_channel_termination (synth : Nat → Except String Blob) (sched : Nat → Nat)
    (c n : Nat) :
    ((pipeModel synth sched c n).1.isOk = true →
      ∃ ws, (∀ w ∈ ws, ∃ b, w = WriterCall.write b) ∧
        (pipeModel synth sched c n).2 = ws ++ [WriterCall.close] ∧
        finalWriterState (pipeModel synth sched c n).2 = WriterState.closed) ∧
    ((pipeModel synth sched c n).1.isOk = false →
      ∃ m ws, (∀ w ∈ ws, ∃ b, w = WriterCall.write b) ∧
        (pipeModel synth sched c n).1 = Except.error ("流式处理失败: " ++ m) ∧
        (pipeModel synth sched c n).2 =
          ws ++ [WriterCall.abortW m, WriterCall.close] ∧
        finalWriterState (pipeModel synth sched c n).2 = WriterState.errored m) := by
  cases hpl : pipeLoop synth sched (batchIndices (optimalConcurrency c n) n) with
  | mk r ws =>
    have hw : ∀ w ∈ ws, ∃ b, w = WriterCall.write b := by
      have hall := pipeLoop_writes synth sched (batchIndices (optimalConcurrency c n) n)
      rw [hpl] at hall
      exact hall
    have hfold : ws.foldl applyWriterCall WriterState.opened = WriterState.opened :=
      foldl_writes_opened ws hw
    cases r with
    | ok u =>
      have hpm : pipeModel synth sched c n = (Except.ok (), ws ++ [WriterCall.close]) := by
        unfold pipeModel
        rw [hpl]
      constructor
      · intro _
        refine ⟨ws, hw, by rw [hpm], ?_⟩
        rw [hpm]
        unfold finalWriterState
        rw [List.foldl_append, hfold]
        rfl
      · intro hfalse
        rw [hpm] at hfalse
        simp [Except.isOk, Except.toBool] at hfalse
    | error m =>
      have hpm : pipeModel synth sched c n =
          (Except.error ("流式处理失败: " ++ m),
           ws ++ [WriterCall.abortW m, WriterCall.close]) := by
        unfold pipeModel
        rw [hpl]
      constructor
      · intro htrue
        rw [hpm] at htrue
        simp [Except.isOk, Except.toBool] at htrue
      · intro _
        refine ⟨m, ws, hw, by rw [hpm], by rw [hpm], ?_⟩
        rw [hpm]
        unfold finalWriterState
        rw [List.foldl_append, hfold]
        rfl

/-- Witness for `c5_channel_termination` on a one-unit failing input. -/
theorem c5_channel_termination_witness :
    (pipeModel (fun _ => Except.error "e1") (fun _ => 0) 1 1).1.isOk = false ∧
    (∃ m ws, (∀ w ∈ ws, ∃ b, w = WriterCall.write b) ∧
      (pipeModel (fun _ => Except.error "e1") (fun _ => 0) 1 1).1 =
        Except.error ("流式处理失败: " ++ m) ∧
      (pipeModel (fun _ => Except.error "e1") (fun _ => 0) 1 1).2 =
        ws ++ [WriterCall.abortW m, WriterCall.close] ∧
      finalWriterState (pipeModel (fun _ => Except.error "e1") (fun _ => 0) 1 1).2 =
        WriterState.errored m) := by
  have hfalse : (pipeModel (fun _ => Except.error "e1") (fun _ => 0) 1 1).1.isOk = false := by
    unfold pipeModel
    rw [batchIndices_one]
    decide
  exact ⟨hfalse,
    (c5_channel_termination (fun _ => Except.error "e1") (fun _ => 0) 1 1).2 hfalse⟩
